import Mathlib

/-!
Verification of the peer-discovery and peer-selection core of the
`javascript-client` library (src/lib/index.js) against its specification.

The JavaScript source is shallowly embedded: peer records become a Lean
structure with `Option` fields (an absent object field is `none`, so the
spread-overlay semantics of `{ ...oldPeer, ...newPeer }` is presence-based),
the HTTP transport is an explicit function argument giving each probe's
outcome, and thrown JS errors become an explicit `Except` error type.
`lodash.cloneDeep` is the identity under value semantics and is therefore
dropped; `lodash.shuffle` (which returns a fresh array and does not mutate
its argument) is modelled by an explicit `shuffleFn` argument whose result
the embedded code discards exactly where the source discards it.
-/

/-- A JS `status` field value: the source compares it against the list
`['OK', 200]`, so it is either a string or a number. -/
inductive StatusV where
  | s (v : String)
  | n (v : Int)
deriving DecidableEq

/-- A peer record (the PeerRecord of the spec). `ip` is the dedup key; every
other field may be absent from a concrete JS object, hence `Option`.
`height` and `delay` are the quality metrics the external sorter reads. -/
structure Peer where
  ip : String
  port : Option Nat := none
  isHttps : Option Bool := none
  version : Option String := none
  status : Option StatusV := none
  height : Option Int := none
  delay : Option Int := none
deriving DecidableEq

/-- Shallow field-merge `{ ...o, ...n }` of two peer records: fields of `n`
win where present, fields of `o` are kept where `n` is silent. In the source
this is only applied when `n.ip = o.ip` (or `n` is the empty object, handled
separately), and the spread takes `n`'s `ip`. -/
def overlay (o n : Peer) : Peer :=
  { ip := n.ip
    port := n.port <|> o.port
    isHttps := n.isHttps <|> o.isHttps
    version := n.version <|> o.version
    status := n.status <|> o.status
    height := n.height <|> o.height
    delay := n.delay <|> o.delay }

/-- Translation of the first loop body of `mergePeerArrays`
(src/lib/index.js:10-13): `newArray.find(peer => peer.ip === oldPeer.ip) || {}`
then `{ ...oldPeer, ...newPeer }`; spreading the empty object returns a copy
of `oldPeer`. -/
def mergeOne (newArray : List Peer) (o : Peer) : Peer :=
  match newArray.find? (fun p => p.ip == o.ip) with
  | some n => overlay o n
  | none => o

/-- Translation of the second loop of `mergePeerArrays`
(src/lib/index.js:14-18): each record of `newArray` is pushed unless a record
with its `ip` is already in the (growing) output. -/
def appendNew (peers : List Peer) : List Peer → List Peer
  | [] => peers
  | n :: rest =>
    if peers.any (fun p => p.ip == n.ip) then appendNew peers rest
    else appendNew (peers ++ [n]) rest

/-- Translation of `mergePeerArrays` (src/lib/index.js:8-21). -/
def mergePeerArrays (oldArray newArray : List Peer) : List Peer :=
  appendNew (oldArray.map (mergeOne newArray)) newArray

/-- Restatement of the spec's append phase: the records of the incoming list
whose `ip` is not among `seen`, keeping only the first record per `ip`, in
incoming order (&#167;4.2: "append every record of `incoming` whose `ip` did not
match any record already placed in the output, preserving `incoming`'s
order"). -/
def newOnlyByIp (seen : List String) : List Peer → List Peer
  | [] => []
  | n :: rest =>
    if seen.any (fun s => s == n.ip) then newOnlyByIp seen rest
    else n :: newOnlyByIp (seen ++ [n.ip]) rest

theorem mergeOne_ip (newArray : List Peer) (o : Peer) :
    (mergeOne newArray o).ip = o.ip := by
  unfold mergeOne
  cases h : newArray.find? (fun p => p.ip == o.ip) with
  | none => rfl
  | some n =>
    have := List.find?_some h
    simpa [overlay] using eq_of_beq this

theorem appendNew_eq (newArray : List Peer) :
    ∀ peers : List Peer,
      appendNew peers newArray = peers ++ newOnlyByIp (peers.map Peer.ip) newArray := by
  induction newArray with
  | nil => intro peers; simp [appendNew, newOnlyByIp]
  | cons n rest ih =>
    intro peers
    have hmem : ∀ ps : List Peer,
        (ps.map Peer.ip).any (fun s => s == n.ip) = ps.any (fun p => p.ip == n.ip) := by
      intro ps
      induction ps with
      | nil => rfl
      | cons a t iht => simp [iht]
    by_cases h : peers.any (fun p => p.ip == n.ip) = true
    · simp [appendNew, newOnlyByIp, h, hmem peers, ih]
    · have h' : peers.any (fun p => p.ip == n.ip) = false := eq_false_of_ne_true h
      simp [appendNew, newOnlyByIp, h', hmem peers, ih (peers ++ [n])]

theorem mergePeerArrays_eq (oldArray newArray : List Peer) :
    mergePeerArrays oldArray newArray =
      oldArray.map (mergeOne newArray)
        ++ newOnlyByIp (oldArray.map Peer.ip) newArray := by
  unfold mergePeerArrays
  rw [appendNew_eq]
  have : (oldArray.map (mergeOne newArray)).map Peer.ip = oldArray.map Peer.ip := by
    rw [List.map_map]
    exact List.map_congr_left (fun o _ => mergeOne_ip newArray o)
  rw [this]

/-- The anchored regex test `/^1\./.test(s)`: the string starts with the two
characters "1.". Stated on the character list so that it evaluates by
kernel reduction. -/
def startsWithOneDot (s : String) : Bool :=
  List.isPrefixOf ['1', '.'] s.toList

/-- Translation of `getPeerVersion` (src/lib/index.js:23-25):
`!peer.version || /^1\./.test(peer.version) ? 1 : 2`. An absent field and the
empty string are the falsy cases of `!peer.version`; the anchored regex
`/^1\./` tests whether the string starts with "1.". -/
def getPeerVersion (peer : Peer) : Nat :=
  match peer.version with
  | none => 1
  | some s => if s = "" ∨ startsWithOneDot s then 1 else 2

/-- The self-address list of `findPeers` (src/lib/index.js:45). -/
def selfIps : List String := ["127.0.0.1", "::ffff:127.0.0.1", "::1"]

/-- Translation of `versionStatus.includes(peer.status)` with
`versionStatus = ['OK', 200]` (src/lib/index.js:46,74); an absent `status`
is in no list. -/
def statusOk (peer : Peer) : Bool :=
  match peer.status with
  | some (.s v) => v == "OK"
  | some (.n v) => v == 200
  | none => false

/-- Translation of the filter callback of `findPeers` (src/lib/index.js:73-79):
under version 1 a peer whose `status` is not in `versionStatus` is dropped;
otherwise a peer is kept when its `ip` is not a self address and its
classified version equals the version being probed for. -/
def probeFilter (version : Nat) (peer : Peer) : Bool :=
  if version == 1 && !statusOk peer then false
  else !(selfIps.any (fun s => s == peer.ip)) && (getPeerVersion peer == version)

/-- The body a successful HTTP `peers` call returns (the `data` of
src/lib/index.js:62): `success`/`peers` are read under version 1,
`dataArr` stands for the `data` field read under version 2. An absent
field is `none` / `false`. -/
structure RespData where
  success : Bool := false
  peers : Option (List Peer) := none
  dataArr : Option (List Peer) := none
deriving DecidableEq

/-- Outcome of one probe request: the request either throws or returns a
`RespData` body. -/
inductive Outcome where
  | throw
  | data (d : RespData)
deriving DecidableEq

/-- Translation of the response interpretation of `findPeers`
(src/lib/index.js:62-69). `none` means the try-block threw before the
`responsePeers.length` test: the request itself threw, or, under version 2,
`data.data.length` was read from an absent `data.data` (a TypeError the
surrounding catch swallows). `some raw` is the value of `responsePeers`
after lines 64-69; note `data.peers` that is present but empty is truthy
in JS only as an array, and an empty array is truthy, so it yields
`some []` just like a falsy `data.peers` leaves the initial `[]`. -/
def rawResponsePeers (version : Nat) : Outcome → Option (List Peer)
  | .throw => none
  | .data d =>
    if version = 1 then
      if d.success then
        match d.peers with
        | some ps => some ps
        | none => some []
      else some []
    else if version = 2 then
      match d.dataArr with
      | none => none
      | some l => if l.isEmpty then some [] else some l
    else some []

/-- Translation of the probe loop of `findPeers` (src/lib/index.js:52-92),
with the transport abstracted as `resp : Peer → Outcome`. Returns the
accumulated `peers` array together with the number of candidates the loop
actually probed (the loop `break`s once `checks >= 2`). -/
def probeLoop (version : Nat) (resp : Peer → Outcome) :
    List Peer → Nat → List Peer → List Peer × Nat
  | [], _, acc => (acc, 0)
  | c :: rest, checks, acc =>
    match rawResponsePeers version (resp c) with
    | none =>
      let r := probeLoop version resp rest checks acc
      (r.1, r.2 + 1)
    | some raw =>
      if raw.isEmpty then
        let r := probeLoop version resp rest checks acc
        (r.1, r.2 + 1)
      else
        let acc2 := mergePeerArrays acc (raw.filter (probeFilter version))
        if checks + 1 ≥ 2 then (acc2, 1)
        else
          let r := probeLoop version resp rest (checks + 1) acc2
          (r.1, r.2 + 1)

/-- The thrown errors the embedded operations distinguish (&#167;7 of the spec
names the first three; `typeError` stands for a raw JS TypeError escaping). -/
inductive JsErr where
  | unsupportedNetwork
  | invalidVersion
  | noApiPeerFound
  | typeError
deriving DecidableEq

/-- Translation of the candidate-list selection of `findPeers`
(src/lib/index.js:36-40): the unsupported-network error is thrown only when
`peersOverride` is undefined and the network is not a key of the seed
table; otherwise `peersOverride || initialPeers[network]` picks the
override whenever it is defined — a JS array is truthy even when empty —
and the seed entry otherwise. -/
def candidatesOf (table : List (String × List Peer)) (network : String)
    (override : Option (List Peer)) : Except JsErr (List Peer) :=
  match override with
  | some l => .ok l
  | none =>
    match table.lookup network with
    | some l => .ok l
    | none => .error .unsupportedNetwork

/-- Modelled from the spec: `sortPeers` (src/utils/sort-peers) is not under
src/; the spec describes it as an external collaborator giving a "total
order over PeerRecord by (descending height, ascending delay) or equivalent
quality metric; ties broken arbitrarily but deterministically is
acceptable" (&#167;6). `peerLe a b` holds when `a` may come before `b` under
that order; an absent metric reads as 0. -/
def peerLe (a b : Peer) : Bool :=
  decide (b.height.getD 0 < a.height.getD 0)
    || (decide (a.height.getD 0 = b.height.getD 0)
        && decide (a.delay.getD 0 ≤ b.delay.getD 0))

/-- Modelled from the spec: insertion step of the deterministic sort
standing in for the external PeerSorter collaborator. -/
def insertPeer (a : Peer) : List Peer → List Peer
  | [] => [a]
  | b :: rest => if peerLe a b then a :: b :: rest else b :: insertPeer a rest

/-- Modelled from the spec: the external PeerSorter collaborator
(src/utils/sort-peers), as a deterministic insertion sort by descending
height then ascending delay. -/
def sortPeers : List Peer → List Peer
  | [] => []
  | a :: rest => insertPeer a (sortPeers rest)

/-- Translation of `findPeers` (src/lib/index.js:35-96). The seed table and
the transport are the collaborators the spec lists (&#167;6), passed as
arguments; `shuffleFn` stands for `lodash.shuffle`, which returns a fresh
shuffled array and does not mutate its argument — the source discards its
return value (src/lib/index.js:43), so the loop iterates `networkPeers` in
the given order. `lodash.cloneDeep` at the return is the identity under
value semantics. -/
def findPeers (table : List (String × List Peer))
    (shuffleFn : List Peer → List Peer) (resp : Peer → Outcome)
    (network : String) (version : Nat) (override : Option (List Peer)) :
    Except JsErr (List Peer) :=
  match candidatesOf table network override with
  | .error e => .error e
  | .ok networkPeers =>
    let _shuffled := shuffleFn networkPeers
    let r := probeLoop version resp networkPeers 0 []
    .ok (sortPeers (if r.1.isEmpty then networkPeers else r.1))

theorem insertPeer_length (a : Peer) (l : List Peer) :
    (insertPeer a l).length = l.length + 1 := by
  induction l with
  | nil => rfl
  | cons b rest ih =>
    by_cases h : peerLe a b = true
    · simp [insertPeer, h]
    · simp [insertPeer, h, ih]

theorem sortPeers_length (l : List Peer) : (sortPeers l).length = l.length := by
  induction l with
  | nil => rfl
  | cons a rest ih => simp [sortPeers, insertPeer_length, ih]

theorem sortPeers_ne_nil (l : List Peer) (h : l ≠ []) : sortPeers l ≠ [] := by
  intro hs
  apply h
  have := sortPeers_length l
  rw [hs] at this
  exact List.length_eq_zero.mp this.symm

theorem not_mem_iff_forall (ip : String) (l : List String) :
    (∀ x ∈ l, ¬ x = ip) ↔ ip ∉ l := by
  constructor
  · intro h hm
    exact h ip hm rfl
  · intro h x hx he
    exact h (he ▸ hx)

/-- C3: for all peer lists `base` and `incoming`, `mergePeerArrays base
incoming` is the base records each shallow-merged with the first same-ip
incoming record (incoming fields win, a missing match leaves the record
unchanged), followed by the incoming records whose ip is not among the
records already placed, in incoming order; the spec's concrete example
holds, and merging with an empty incoming list returns the base list
unchanged. -/
theorem C3_mergePeerArrays_characterization :
    (∀ base incoming : List Peer,
      mergePeerArrays base incoming =
        base.map (mergeOne incoming) ++ newOnlyByIp (base.map Peer.ip) incoming) ∧
    mergePeerArrays [{ ip := "A", port := some 1 }, { ip := "B", port := some 2 }]
        [{ ip := "B", port := some 22, version := some "2" },
         { ip := "C", port := some 3 }]
      = [{ ip := "A", port := some 1 },
         { ip := "B", port := some 22, version := some "2" },
         { ip := "C", port := some 3 }] ∧
    (∀ base : List Peer, mergePeerArrays base [] = base) := by
  refine ⟨mergePeerArrays_eq, by decide, ?_⟩
  intro base
  rw [mergePeerArrays_eq]
  have h1 : base.map (mergeOne []) = base := by
    calc base.map (mergeOne []) = base.map id := List.map_congr_left (fun o _ => rfl)
      _ = base := List.map_id base
  rw [h1]
  simp [newOnlyByIp]

/-- C4: the probe filter keeps exactly the peers whose ip is outside the
self-address set, whose status is in the recognized set when probing for
version 1, and whose classified version equals the probed version; a peer
classifies as version 1 exactly when its version string is absent, empty
(falsy) or starts with "1.", and as version 2 otherwise; concretely, under
version 1 a peer with status 500, a loopback peer, and a version-2 peer are
all dropped. -/
theorem C4_probeFilter_characterization :
    (∀ version : Nat, ∀ peer : Peer,
      probeFilter version peer = true ↔
        (peer.ip ∉ selfIps ∧ (version = 1 → statusOk peer = true)
          ∧ getPeerVersion peer = version)) ∧
    (∀ peer : Peer,
      getPeerVersion peer = 1 ↔
        (peer.version = none ∨ peer.version = some ""
          ∨ ∃ s, peer.version = some s ∧ startsWithOneDot s = true)) ∧
    (∀ peer : Peer, getPeerVersion peer = 1 ∨ getPeerVersion peer = 2) ∧
    selfIps = ["127.0.0.1", "::ffff:127.0.0.1", "::1"] ∧
    probeFilter 1 { ip := "8.8.8.8", status := some (.n 500) } = false ∧
    probeFilter 1 { ip := "127.0.0.1", status := some (.s "OK") } = false ∧
    probeFilter 1 { ip := "8.8.8.8", status := some (.s "OK"),
                    version := some "2.1.0" } = false := by
  refine ⟨?_, ?_, ?_, rfl, by decide, by decide, by decide⟩
  · intro version peer
    by_cases hv : version = 1
    · subst hv
      by_cases hs : statusOk peer = true
      · simp [probeFilter, hs, not_mem_iff_forall]
      · simp [probeFilter, hs]
    · simp [probeFilter, hv, not_mem_iff_forall]
  · intro peer
    cases hv : peer.version with
    | none => simp [getPeerVersion, hv]
    | some s =>
      by_cases h1 : s = ""
      · simp [getPeerVersion, hv, h1]
      · by_cases h2 : startsWithOneDot s = true
        · simp [getPeerVersion, hv, h1, h2]
        · simp [getPeerVersion, hv, h1, h2]
  · intro peer
    cases hv : peer.version with
    | none => left; simp [getPeerVersion, hv]
    | some s =>
      by_cases h : s = "" ∨ startsWithOneDot s = true
      · left; simp [getPeerVersion, hv, h]
      · right; simp [getPeerVersion, hv, h]

instance {ε α : Type} [DecidableEq ε] [DecidableEq α] : DecidableEq (Except ε α) := fun a b =>
  match a, b with
  | .ok x, .ok y =>
    if h : x = y then isTrue (by rw [h])
    else isFalse (by intro hh; injection hh; exact h (by assumption))
  | .ok _, .error _ => isFalse (fun hh => Except.noConfusion hh)
  | .error _, .ok _ => isFalse (fun hh => Except.noConfusion hh)
  | .error x, .error y =>
    if h : x = y then isTrue (by rw [h])
    else isFalse (by intro hh; injection hh; exact h (by assumption))

/-- Restatement of the early-exit policy over a list of per-candidate
"counts as a successful check" flags: the length of the shortest prefix
accumulating `need` true flags, or the whole list's length when the flags
never reach `need`. -/
def quorumStop (need : Nat) : List Bool → Nat
  | [] => 0
  | b :: rest =>
    if b then (if need ≤ 1 then 1 else 1 + quorumStop (need - 1) rest)
    else 1 + quorumStop need rest

/-- Whether a probe outcome counts toward the quorum in the source: the
`checks++` of src/lib/index.js:83 sits inside `if (responsePeers.length)`
(line 71), which tests the raw accepted list BEFORE the filter of lines
73-79 runs. -/
def probeCounts (version : Nat) (out : Outcome) : Bool :=
  match rawResponsePeers version out with
  | some raw => !raw.isEmpty
  | none => false

theorem probeLoop_probed (version : Nat) (resp : Peer → Outcome) :
    ∀ (cands : List Peer) (checks : Nat) (acc : List Peer), checks < 2 →
      (probeLoop version resp cands checks acc).2
        = quorumStop (2 - checks)
            (cands.map (fun c => probeCounts version (resp c))) := by
  intro cands
  induction cands with
  | nil => intro checks acc _; rfl
  | cons c rest ih =>
    intro checks acc h
    cases hr : rawResponsePeers version (resp c) with
    | none =>
      simp [probeLoop, hr, probeCounts, quorumStop, ih checks acc h, Nat.add_comm]
    | some raw =>
      by_cases he : raw.isEmpty
      · simp [probeLoop, hr, he, probeCounts, quorumStop, ih checks acc h, Nat.add_comm]
      · rcases (by omega : checks = 0 ∨ checks = 1) with h0 | h1
        · subst h0
          simp [probeLoop, hr, he, probeCounts, quorumStop,
            ih 1 (mergePeerArrays acc (raw.filter (probeFilter version))) (by omega),
            Nat.add_comm]
        · subst h1
          simp [probeLoop, hr, he, probeCounts, quorumStop]

/-- C2 (amended): the probe loop stops as soon as 2 probes have each yielded
a non-empty RAW accepted peer list — a probe counts toward the quorum even
when filtering then empties its list, because the source counts `checks++`
under the pre-filter `responsePeers.length` test — and otherwise continues
until candidates are exhausted. The number of candidates probed equals
`quorumStop 2` of the per-candidate counting flags. -/
theorem C2_quorum_on_prefilter_lists (version : Nat) (resp : Peer → Outcome)
    (cands : List Peer) :
    (probeLoop version resp cands 0 []).2
      = quorumStop 2 (cands.map (fun c => probeCounts version (resp c))) :=
  probeLoop_probed version resp cands 0 [] (by omega)

/-- A candidate peer fixture. -/
def cand1 : Peer := { ip := "1.1.1.1", port := some 4001 }

/-- A candidate peer fixture. -/
def cand2 : Peer := { ip := "2.2.2.2", port := some 4001 }

/-- A candidate peer fixture. -/
def cand3 : Peer := { ip := "3.3.3.3", port := some 4001 }

/-- A usable version-1 peer a probe can return. -/
def goodPeer : Peer := { ip := "4.4.4.4", port := some 4001, status := some (.s "OK") }

/-- The loopback peer: passes the status check, dropped by the self-ip
filter. -/
def selfPeer : Peer := { ip := "127.0.0.1", status := some (.s "OK") }

/-- Transport fixture: the first two candidates answer with only the
loopback peer, the third with a usable peer. -/
def respSelfTwice : Peer → Outcome := fun p =>
  if p.ip == "3.3.3.3" then .data { success := true, peers := some [goodPeer] }
  else .data { success := true, peers := some [selfPeer] }

/-- C2 counterexample: probing version 1 over three candidates whose first
two probes return a non-empty raw list that filters to empty, the loop
stops after those 2 probes (probed count 2 of 3) with nothing accumulated,
although the third candidate would have yielded a usable peer: a probe
whose filtered peer list is empty DOES count toward the quorum, refuting
the claim as stated. -/
theorem C2_counterexample_prefilter_counts :
    (probeLoop 1 respSelfTwice [cand1, cand2, cand3] 0 []).2 = 2 ∧
    ((rawResponsePeers 1 (respSelfTwice cand1)).getD []).filter (probeFilter 1) = [] ∧
    ((rawResponsePeers 1 (respSelfTwice cand2)).getD []).filter (probeFilter 1) = [] ∧
    ((rawResponsePeers 1 (respSelfTwice cand3)).getD []).filter (probeFilter 1)
      = [goodPeer] ∧
    (probeLoop 1 respSelfTwice [cand1, cand2, cand3] 0 []).1 = [] :=
  ⟨by decide, by decide, by decide, by decide, by decide⟩

/-- C1: for every non-empty candidate list (a seed-table entry or an
override), findPeers returns: the accumulated merged peers sorted when the
probe loop accumulated any, the sorted original candidate list otherwise —
and in either case the result is non-empty. -/
theorem C1_findPeers_never_empty (table : List (String × List Peer))
    (shuffleFn : List Peer → List Peer) (resp : Peer → Outcome)
    (network : String) (version : Nat) (override : Option (List Peer))
    (cand : List Peer) (hc : candidatesOf table network override = .ok cand)
    (hne : cand ≠ []) :
    findPeers table shuffleFn resp network version override
      = .ok (sortPeers (if (probeLoop version resp cand 0 []).1.isEmpty
          then cand else (probeLoop version resp cand 0 []).1)) ∧
    ∀ r, findPeers table shuffleFn resp network version override = .ok r → r ≠ [] := by
  have h1 : findPeers table shuffleFn resp network version override
      = .ok (sortPeers (if (probeLoop version resp cand 0 []).1.isEmpty
          then cand else (probeLoop version resp cand 0 []).1)) := by
    unfold findPeers
    rw [hc]
  refine ⟨h1, ?_⟩
  intro r hr
  rw [h1] at hr
  injection hr with hr
  subst hr
  apply sortPeers_ne_nil
  by_cases he : (probeLoop version resp cand 0 []).1.isEmpty
  · rw [if_pos he]; exact hne
  · rw [if_neg he]
    intro hnil
    exact he (by simp [hnil])

/-- Seed-table fixture with the two documented network names. -/
def tblW : List (String × List Peer) := [("devnet", [cand1]), ("mainnet", [cand2])]

/-- Transport fixture on which every probe request throws. -/
def respThrow : Peer → Outcome := fun _ => .throw

/-- C1 witness: on the devnet seed list [cand1] with every probe throwing,
findPeers falls back to the sorted seed list, which is non-empty. -/
theorem C1_witness :
    findPeers tblW id respThrow "devnet" 1 none = .ok [cand1] ∧ [cand1] ≠ [] := by
  have h := C1_findPeers_never_empty tblW id respThrow "devnet" 1 none [cand1]
    (by rfl) (by simp)
  exact ⟨h.1.trans (by decide), by simp⟩

/-- C10 (amended): a defined but empty override list on a network absent
from the seed table raises no error at all — the unsupported-network check
sees a defined override, and a JS empty array is truthy, so the empty
override itself becomes the candidate list and findPeers returns
an empty list. -/
theorem C10_empty_override_amended (table : List (String × List Peer))
    (shuffleFn : List Peer → List Peer) (resp : Peer → Outcome)
    (network : String) (version : Nat)
    (_h : table.lookup network = none) :
    findPeers table shuffleFn resp network version (some []) = .ok [] := rfl

/-- C10 witness: concrete instance of the amended claim on a network name
outside the seed table. -/
theorem C10_witness :
    findPeers tblW id respThrow "nonet" 1 (some []) = .ok [] :=
  C10_empty_override_amended tblW id respThrow "nonet" 1 (by rfl)

/-- C10 counterexample: with network "nonet" absent from the seed table and
the defined empty override, findPeers evaluates to `.ok []` — no raw
TypeError (nor any other error) escapes, refuting the claimed dereference
of an undefined candidate list. -/
theorem C10_counterexample_no_typeError :
    findPeers tblW id respThrow "nonet" 1 (some []) = .ok [] ∧
    findPeers tblW id respThrow "nonet" 1 (some []) ≠ .error .typeError :=
  ⟨rfl, by decide⟩

/-- Modelled from the spec: the probing order the spec prescribes —
"Randomly shuffles the candidate order ... before probing", the loop then
iterating in shuffled order, with the fallback still the original
(pre-shuffle) candidate list (&#167;4.3). Identical to `findPeers` except that
the loop consumes `shuffleFn networkPeers`. -/
def findPeersShuffledSpec (table : List (String × List Peer))
    (shuffleFn : List Peer → List Peer) (resp : Peer → Outcome)
    (network : String) (version : Nat) (override : Option (List Peer)) :
    Except JsErr (List Peer) :=
  match candidatesOf table network override with
  | .error e => .error e
  | .ok networkPeers =>
    let shuffled := shuffleFn networkPeers
    let r := probeLoop version resp shuffled 0 []
    .ok (sortPeers (if r.1.isEmpty then networkPeers else r.1))

/-- A second usable version-1 peer a probe can return. -/
def goodPeerB : Peer := { ip := "5.5.5.5", port := some 4001, status := some (.s "OK") }

/-- Transport fixture distinguishing probe order: the first candidate
answers with `goodPeer`, every other candidate with `goodPeerB`. -/
def respOrder : Peer → Outcome := fun p =>
  if p.ip == "1.1.1.1" then .data { success := true, peers := some [goodPeer] }
  else .data { success := true, peers := some [goodPeerB] }

/-- Seed-table fixture with two candidates for the shuffle claim. -/
def tblOrder : List (String × List Peer) := [("devnet", [cand1, cand2])]

/-- C5 (code bug): findPeers is independent of the shuffle — the source
passes `networkPeers` to `lodash.shuffle` but discards the returned
shuffled array, so the loop probes the candidates in their original order.
Concretely, with a reversing shuffle the result still reflects probing
cand1 before cand2, while the spec-modelled shuffled-order variant yields
the reversed merge order. -/
theorem C5_shuffle_discarded :
    (∀ (table : List (String × List Peer)) (f g : List Peer → List Peer)
        (resp : Peer → Outcome) (network : String) (version : Nat)
        (override : Option (List Peer)),
      findPeers table f resp network version override
        = findPeers table g resp network version override) ∧
    findPeers tblOrder List.reverse respOrder "devnet" 1 none
      = .ok [goodPeer, goodPeerB] ∧
    findPeersShuffledSpec tblOrder List.reverse respOrder "devnet" 1 none
      = .ok [goodPeerB, goodPeer] := by
  refine ⟨?_, by decide, by decide⟩
  intro table f g resp network version override
  rfl

/-- One sub-service entry of a configuration document (&#167;4.4): its `enabled`
flag and configured `port` are the fields the source reads
(src/lib/index.js:150-155). -/
structure PluginConfig where
  enabled : Bool := false
  port : Nat := 0
deriving DecidableEq

/-- The configuration document `fetchPeerConfig` yields (the `data.data`
payload): an optional `plugins` object, embedded as an association list
from plugin name to its entry. -/
structure ConfigDoc where
  plugins : Option (List (String × PluginConfig)) := none
deriving DecidableEq

/-- The destructured `{ data }` a non-throwing config request returns; its
nested `data` payload may itself be absent. -/
structure FetchBody where
  data : Option ConfigDoc := none
deriving DecidableEq

/-- Outcome of one config request (src/lib/index.js:125): the request
throws, or returns a response whose `data` is falsy (`resp none`) or a
truthy body. -/
inductive FetchOutcome where
  | fail
  | resp (data : Option FetchBody)
deriving DecidableEq

/-- The semantics of `host.replace(/:\d+/, ':4040')` (src/lib/index.js:106)
on the character list: the leftmost colon followed by at least one digit,
together with the maximal digit run after it, is replaced by ":4040";
`none` when the regex does not match. -/
def replacePortChars : List Char → Option (List Char)
  | [] => none
  | c :: rest =>
    if c = ':' && (match rest with | d :: _ => d.isDigit | [] => false) then
      some (":4040".toList ++ rest.dropWhile Char.isDigit)
    else (replacePortChars rest).map (fun l => c :: l)

/-- The companion host of `fetchPeerConfig`: the given host with its first
`:digits` run replaced by the fixed alternate port `:4040`
(src/lib/index.js:106); a host without one is returned unchanged, as
`String.replace` does. -/
def walletApiHost (host : String) : String :=
  match replacePortChars host.toList with
  | some l => String.mk l
  | none => host

/-- The three attempts of `fetchPeerConfig` (src/lib/index.js:107-120), in
order: the host itself at `/config`, the alternate-port host at `/config`,
the alternate-port host with no endpoint. -/
def fetchAttempts (host : String) : List (String × Option String) :=
  [(host, some "/config"),
   (walletApiHost host, some "/config"),
   (walletApiHost host, none)]

/-- Translation of the attempt loop of `fetchPeerConfig`
(src/lib/index.js:122-133), the transport abstracted as `req`: a thrown
request or a falsy `data` moves on to the next attempt; a truthy `data`
returns its nested `data` payload immediately; exhaustion gives `none`
(the null of src/lib/index.js:135). -/
def tryAttempts (req : String → Option String → FetchOutcome) :
    List (String × Option String) → Option (Option ConfigDoc)
  | [] => none
  | a :: rest =>
    match req a.1 a.2 with
    | .resp (some body) => some body.data
    | _ => tryAttempts req rest

/-- Translation of `fetchPeerConfig` (src/lib/index.js:105-136). -/
def fetchPeerConfig (req : String → Option String → FetchOutcome)
    (host : String) : Option (Option ConfigDoc) :=
  tryAttempts req (fetchAttempts host)

/-- The attempt loop instrumented with the list of requests actually
issued, in order; its result component agrees with `tryAttempts`. -/
def tryAttemptsTrace (req : String → Option String → FetchOutcome) :
    List (String × Option String) →
      Option (Option ConfigDoc) × List (String × Option String)
  | [] => (none, [])
  | a :: rest =>
    match req a.1 a.2 with
    | .resp (some body) => (some body.data, [a])
    | _ =>
      let r := tryAttemptsTrace req rest
      (r.1, a :: r.2)

/-- The payload an attempt yields when its response is non-empty, `none`
otherwise. -/
def attemptPayload (req : String → Option String → FetchOutcome)
    (a : String × Option String) : Option (Option ConfigDoc) :=
  match req a.1 a.2 with
  | .resp (some body) => some body.data
  | _ => none

/-- Whether an attempt's response is non-empty (truthy `data`). -/
def attemptHit (req : String → Option String → FetchOutcome)
    (a : String × Option String) : Bool :=
  match req a.1 a.2 with
  | .resp (some _) => true
  | _ => false

/-- The prefix of a list up to and including its first element satisfying
`p`, or the whole list when none does. -/
def takeThrough {α : Type} (p : α → Bool) : List α → List α
  | [] => []
  | a :: rest => if p a then [a] else a :: takeThrough p rest

theorem tryAttempts_eq (req : String → Option String → FetchOutcome) :
    ∀ atts, tryAttempts req atts = atts.findSome? (attemptPayload req) := by
  intro atts
  induction atts with
  | nil => rfl
  | cons a rest ih =>
    cases hq : req a.1 a.2 with
    | fail => simp [tryAttempts, attemptPayload, hq, ih, List.findSome?_cons]
    | resp d =>
      cases d with
      | none => simp [tryAttempts, attemptPayload, hq, ih, List.findSome?_cons]
      | some body => simp [tryAttempts, attemptPayload, hq, List.findSome?_cons]

theorem tryAttemptsTrace_fst (req : String → Option String → FetchOutcome) :
    ∀ atts, (tryAttemptsTrace req atts).1 = tryAttempts req atts := by
  intro atts
  induction atts with
  | nil => rfl
  | cons a rest ih =>
    cases hq : req a.1 a.2 with
    | fail => simp [tryAttemptsTrace, tryAttempts, hq, ih]
    | resp d =>
      cases d with
      | none => simp [tryAttemptsTrace, tryAttempts, hq, ih]
      | some body => simp [tryAttemptsTrace, tryAttempts, hq]

theorem tryAttemptsTrace_snd (req : String → Option String → FetchOutcome) :
    ∀ atts, (tryAttemptsTrace req atts).2 = takeThrough (attemptHit req) atts := by
  intro atts
  induction atts with
  | nil => rfl
  | cons a rest ih =>
    cases hq : req a.1 a.2 with
    | fail => simp [tryAttemptsTrace, takeThrough, attemptHit, hq, ih]
    | resp d =>
      cases d with
      | none => simp [tryAttemptsTrace, takeThrough, attemptHit, hq, ih]
      | some body => simp [tryAttemptsTrace, takeThrough, attemptHit, hq]

/-- A configuration document whose core-api sub-service is enabled on
port 4003. -/
def cfgEnabled : ConfigDoc :=
  { plugins := some [("@arkecosystem/core-api", { enabled := true, port := 4003 })] }

/-- Transport fixture on which every config request throws. -/
def reqFail : String → Option String → FetchOutcome := fun _ _ => .fail

/-- Transport fixture on which only the alternate-port host answers (so the
second attempt succeeds and the third is skipped). -/
def reqSecond : String → Option String → FetchOutcome := fun h _ =>
  if h == "http://1.2.3.4:4040" then .resp (some { data := some cfgEnabled })
  else .fail

/-- C6: fetchPeerConfig makes, in strict order, at most three attempts: the
host at the config endpoint, the alternate-port host at the config
endpoint, then the alternate-port host with no endpoint path; the requests
actually issued stop at (and include) the first attempt whose
response is non-empty, whose data payload is the result; exhausting all
three yields null (`none`), not an error. The alternate host replaces the
host's port digits with 4040, and a success on attempt 2 skips attempt 3. -/
theorem C6_fetchPeerConfig_attempts :
    (∀ req host, fetchPeerConfig req host
      = (fetchAttempts host).findSome? (attemptPayload req)) ∧
    (∀ req host, (tryAttemptsTrace req (fetchAttempts host)).2
      = takeThrough (attemptHit req) (fetchAttempts host)) ∧
    (∀ req host, (tryAttemptsTrace req (fetchAttempts host)).1
      = fetchPeerConfig req host) ∧
    (∀ host, fetchAttempts host
      = [(host, some "/config"), (walletApiHost host, some "/config"),
         (walletApiHost host, none)]) ∧
    walletApiHost "http://1.2.3.4:4002" = "http://1.2.3.4:4040" ∧
    (tryAttemptsTrace reqSecond (fetchAttempts "http://1.2.3.4:4002")).2
      = [("http://1.2.3.4:4002", some "/config"),
         ("http://1.2.3.4:4040", some "/config")] ∧
    fetchPeerConfig reqSecond "http://1.2.3.4:4002" = some (some cfgEnabled) ∧
    fetchPeerConfig reqFail "http://1.2.3.4:4002" = none := by
  refine ⟨fun req host => tryAttempts_eq req (fetchAttempts host),
    fun req host => tryAttemptsTrace_snd req (fetchAttempts host),
    fun req host => (tryAttemptsTrace_fst req (fetchAttempts host)),
    fun host => rfl, by decide, by decide, by decide, by decide⟩

/-- The base URL `selectApiPeer` builds for a peer (src/lib/index.js:147 and
182); an absent `port` prints as "undefined" in a JS template string. -/
def peerHost (p : Peer) : String :=
  "http://" ++ p.ip ++ ":"
    ++ (match p.port with | some n => toString n | none => "undefined")

/-- The sub-service key the source looks up (src/lib/index.js:150). -/
def coreApiKey : String := "@arkecosystem/core-api"

/-- Translation of `selectApiPeer` (src/lib/index.js:145-160): walk the
peers in order; fetch each one's configuration; when it is truthy, has a
truthy `plugins` object whose core-api entry exists and is enabled, return
the peer with its `port` overridden to that entry's port; otherwise move
on; exhaustion returns null. -/
def selectApiPeer (req : String → Option String → FetchOutcome) :
    List Peer → Option Peer
  | [] => none
  | peer :: rest =>
    match fetchPeerConfig req (peerHost peer) with
    | some (some doc) =>
      match doc.plugins with
      | some plugs =>
        match plugs.lookup coreApiKey with
        | some pc =>
          if pc.enabled then some { peer with port := some pc.port }
          else selectApiPeer req rest
        | none => selectApiPeer req rest
      | none => selectApiPeer req rest
    | _ => selectApiPeer req rest

/-- Restatement of the per-peer test of &#167;4.4: a peer resolves exactly when
its fetched configuration declares the core-api sub-service present and
enabled, and then resolves to the peer with its port replaced by the
sub-service's configured port. -/
def resolveApiPeer (req : String → Option String → FetchOutcome)
    (peer : Peer) : Option Peer :=
  match fetchPeerConfig req (peerHost peer) with
  | some (some doc) =>
    match doc.plugins with
    | some plugs =>
      match plugs.lookup coreApiKey with
      | some pc =>
        if pc.enabled then some { peer with port := some pc.port } else none
      | none => none
    | none => none
  | _ => none

theorem selectApiPeer_eq (req : String → Option String → FetchOutcome) :
    ∀ peers, selectApiPeer req peers = peers.findSome? (resolveApiPeer req) := by
  intro peers
  induction peers with
  | nil => rfl
  | cons p rest ih =>
    cases hc : fetchPeerConfig req (peerHost p) with
    | none => simp [selectApiPeer, resolveApiPeer, hc, ih, List.findSome?_cons]
    | some od =>
      cases od with
      | none => simp [selectApiPeer, resolveApiPeer, hc, ih, List.findSome?_cons]
      | some doc =>
        cases hp : doc.plugins with
        | none => simp [selectApiPeer, resolveApiPeer, hc, hp, ih, List.findSome?_cons]
        | some plugs =>
          cases hl : plugs.lookup coreApiKey with
          | none =>
            simp [selectApiPeer, resolveApiPeer, hc, hp, hl, ih, List.findSome?_cons]
          | some pc =>
            by_cases he : pc.enabled = true
            · simp [selectApiPeer, resolveApiPeer, hc, hp, hl, he, List.findSome?_cons]
            · simp [selectApiPeer, resolveApiPeer, hc, hp, hl, he, ih,
                List.findSome?_cons]

/-- Transport fixture for C7: the base hosts of cand2 and cand3 answer with
an enabled core-api configuration; everything else throws. -/
def reqTwoEnabled : String → Option String → FetchOutcome := fun h _ =>
  if h == peerHost cand2 || h == peerHost cand3 then
    .resp (some { data := some cfgEnabled })
  else .fail

/-- C7: selectApiPeer walks the peer list in order and returns the first
peer whose fetched configuration declares core-api present and enabled, as
a copy of that peer with its port replaced by the configured sub-service
port, without examining later peers (first-match semantics of findSome?);
an empty list, or a list in which no peer qualifies, gives null.
Concretely, with cand2 and cand3 both qualifying, cand2 is returned with
its port overridden to 4003. -/
theorem C7_selectApiPeer_first_match :
    (∀ req peers, selectApiPeer req peers = peers.findSome? (resolveApiPeer req)) ∧
    (∀ req, selectApiPeer req [] = none) ∧
    selectApiPeer reqFail [cand1, cand2] = none ∧
    selectApiPeer reqTwoEnabled [cand1, cand2, cand3]
      = some { cand2 with port := some 4003 } := by
  refine ⟨selectApiPeer_eq, fun req => rfl, by decide, by decide⟩

/-- The client handle the embedded constructor produces: the bound host and
stored version (src/lib/index.js:191-203). -/
structure ApiClient where
  host : String
  version : Nat
deriving DecidableEq

/-- Translation of `setVersion` (src/lib/index.js:218-227): a falsy version
(absent or 0) throws `InvalidVersionError`; otherwise the version is stored
(and propagated to the HTTP client). -/
def setVersion (version : Option Nat) : Except JsErr Nat :=
  match version with
  | none => .error .invalidVersion
  | some 0 => .error .invalidVersion
  | some n => .ok n

/-- Translation of the ApiClient constructor (src/lib/index.js:191-194):
`this.setVersion(version || 1)` — the JS `||` replaces a falsy (absent or
zero) version argument by the default 1 before `setVersion` runs. -/
def mkApiClient (host : String) (version : Option Nat) : Except JsErr ApiClient :=
  match setVersion (some (match version with | none => 1 | some 0 => 1 | some n => n)) with
  | .ok v => .ok { host := host, version := v }
  | .error e => .error e

/-- Translation of `connect` (src/lib/index.js:169-183): discover peers;
under version 1 bind to `peers[0]` unconditionally (an empty list makes
`peer.ip` a TypeError); otherwise delegate to `selectApiPeer` and throw
`NoApiPeerFoundError` when it returns null; bind the handle to
`http://ip:port` of the chosen peer and the requested version. -/
def connect (table : List (String × List Peer)) (shuffleFn : List Peer → List Peer)
    (resp : Peer → Outcome) (req : String → Option String → FetchOutcome)
    (network : String) (version : Nat) (override : Option (List Peer)) :
    Except JsErr ApiClient :=
  match findPeers table shuffleFn resp network version override with
  | .error e => .error e
  | .ok peers =>
    if version = 1 then
      match peers with
      | [] => .error .typeError
      | p :: _ => mkApiClient (peerHost p) (some version)
    else
      match selectApiPeer req peers with
      | none => .error .noApiPeerFound
      | some p => mkApiClient (peerHost p) (some version)

/-- C8: connect obtains the discovered sorted peer list; under version 1 it
binds the handle to the first element of that list unconditionally; under
version 2 it delegates to selectApiPeer over the full list, fails with
NoApiPeerFoundError when no peer qualifies, and on success binds the handle
to the chosen peer's address and port and the requested version. -/
theorem C8_connect_binding (table : List (String × List Peer))
    (shuffleFn : List Peer → List Peer) (resp : Peer → Outcome)
    (req : String → Option String → FetchOutcome)
    (network : String) (override : Option (List Peer)) :
    (∀ p rest, findPeers table shuffleFn resp network 1 override = .ok (p :: rest) →
      connect table shuffleFn resp req network 1 override
        = .ok { host := peerHost p, version := 1 }) ∧
    (∀ peers, findPeers table shuffleFn resp network 2 override = .ok peers →
      (selectApiPeer req peers = none →
        connect table shuffleFn resp req network 2 override
          = .error .noApiPeerFound) ∧
      (∀ p, selectApiPeer req peers = some p →
        connect table shuffleFn resp req network 2 override
          = .ok { host := peerHost p, version := 2 })) := by
  refine ⟨?_, ?_⟩
  · intro p rest h
    unfold connect
    rw [h]
    rfl
  · intro peers h
    refine ⟨?_, ?_⟩
    · intro hs
      unfold connect
      rw [h]
      simp [hs]
    · intro p hs
      unfold connect
      rw [h]
      simp [hs]
      rfl

/-- C8 witness: with the devnet seed list [cand1] and every probe throwing,
version 1 binds to cand1; version 2 finds no core-api peer and fails. -/
theorem C8_witness :
    connect tblW id respThrow reqFail "devnet" 1 none
      = .ok { host := "http://1.1.1.1:4001", version := 1 } ∧
    connect tblW id respThrow reqFail "devnet" 2 none
      = .error .noApiPeerFound := by
  have h := C8_connect_binding tblW id respThrow reqFail "devnet" none
  refine ⟨?_, ?_⟩
  · exact (h.1 cand1 [] (by decide)).trans (by decide)
  · exact ((h.2 [cand1] (by decide)).1 (by decide))

/-- C9 (amended): setVersion rejects a zero or absent version with
InvalidVersionError and stores a non-zero version; the constructor,
however, never fails on a zero/absent version argument — `version || 1`
replaces it by the default 1 — so only direct setVersion calls throw. -/
theorem C9_version_validation :
    setVersion none = .error .invalidVersion ∧
    setVersion (some 0) = .error .invalidVersion ∧
    (∀ n : Nat, n ≠ 0 → setVersion (some n) = .ok n) ∧
    (∀ host, mkApiClient host none = .ok { host := host, version := 1 }) ∧
    (∀ host, mkApiClient host (some 0) = .ok { host := host, version := 1 }) ∧
    (∀ host n, n ≠ 0 → mkApiClient host (some n)
      = .ok { host := host, version := n }) := by
  refine ⟨rfl, rfl, ?_, fun host => rfl, fun host => rfl, ?_⟩
  · intro n hn
    cases n with
    | zero => exact absurd rfl hn
    | succ m => rfl
  · intro host n hn
    cases n with
    | zero => exact absurd rfl hn
    | succ m => rfl

/-- C9 counterexample: the constructor called with version 0 does not fail
with InvalidVersionError — it succeeds and stores the default version 1. -/
theorem C9_counterexample_constructor_zero :
    mkApiClient "http://7.7.7.7:4001" (some 0)
      = .ok { host := "http://7.7.7.7:4001", version := 1 } ∧
    mkApiClient "http://7.7.7.7:4001" (some 0) ≠ .error .invalidVersion :=
  ⟨rfl, by decide⟩
